import Mathlib

/-
Verification of the pharmaclaw catalyst-design core against its specification.
The Python sources (catalyst_recommend.py, ligand_designer.py, chain_entry.py)
are shallowly embedded below: numbers are exact rationals, dictionaries are
structures or association lists, raised exceptions are Except.error values,
and the RDKit toolkit collaborator is an abstract record of operations.
-/

deriving instance DecidableEq for Except

/-- ASCII lowercase of one character, as the Python str.lower method acts on the ASCII data used in this program. -/
def pyLowerChar (c : Char) : Char :=
  if 65 ≤ c.toNat ∧ c.toNat ≤ 90 then Char.ofNat (c.toNat + 32) else c

/-- ASCII lowercase of a string. -/
def pyLower (s : String) : String := ⟨s.data.map pyLowerChar⟩

/-- Whitespace test for the strip step. -/
def isSpaceChar (c : Char) : Bool := c == ' ' || c == '\t' || c == '\n' || c == '\r'

/-- Python str.strip: remove leading and trailing whitespace. -/
def pyStrip (s : String) : String :=
  ⟨((s.data.dropWhile isSpaceChar).reverse.dropWhile isSpaceChar).reverse⟩

/-- Replace a hyphen or a space by an underscore; applied charwise it is the composition of the two single-character str.replace calls of the source. -/
def underscoreChar (c : Char) : Char := if c == '-' || c == ' ' then '_' else c

/-- Normalisation of a raw reaction descriptor: strip, lowercase, and replace hyphens and spaces with underscores. -/
def pyNormalizeToken (s : String) : String :=
  ⟨((pyStrip s).data.map pyLowerChar).map underscoreChar⟩

/-- Whether the first character list starts the second one. -/
def charStarts : List Char → List Char → Bool
  | [], _ => true
  | _ :: _, [] => false
  | a :: as, b :: bs => a == b && charStarts as bs

/-- Whether pat occurs as a contiguous run inside hay. -/
def charSub (pat : List Char) : List Char → Bool
  | [] => pat.isEmpty
  | b :: bs => charStarts pat (b :: bs) || charSub pat bs

/-- Python substring membership test pat in hay. -/
def strContains (hay pat : String) : Bool := charSub pat.data hay.data

/-- Round half to even to the nearest integer, the tie rule of Python round. -/
def roundHalfEven (q : ℚ) : ℤ :=
  let f := ⌊q⌋
  let r := q - f
  if r < 1/2 then f
  else if 1/2 < r then f + 1
  else if f % 2 = 0 then f else f + 1

/-- Python round(x, 1): one decimal digit. Scores are modelled as exact rationals. -/
def round1 (q : ℚ) : ℚ := (roundHalfEven (10 * q) : ℚ) / 10

/-- Python round(x, 2), used for two-decimal molecular descriptors. -/
def round2 (q : ℚ) : ℚ := (roundHalfEven (100 * q) : ℚ) / 100

/-- Python x or y over optional strings: an absent or empty left operand falls through to the right one. -/
def pyOr (a b : Option String) : Option String :=
  match a with
  | some s => if s = "" then b else some s
  | none => b

/-- Python truthiness of an optional string field. -/
def truthyStr (o : Option String) : Bool :=
  match o with
  | some s => s ≠ ""
  | none => false

/-- Lexicographic comparison of character lists by code point, as Python compares strings. -/
def charListLt : List Char → List Char → Bool
  | [], [] => false
  | [], _ :: _ => true
  | _ :: _, [] => false
  | a :: as, b :: bs => a.toNat < b.toNat || (a == b && charListLt as bs)

/-- String comparison by code points. -/
def strLt (a b : String) : Bool := charListLt a.data b.data

/-- Insert into an ascending-sorted list of strings. -/
def insertStrAsc (x : String) : List String → List String
  | [] => [x]
  | y :: ys => if strLt x y then x :: y :: ys else y :: insertStrAsc x ys

/-- Ascending sort, modelling Python sorted on a list of distinct strings. -/
def sortStrAsc : List String → List String
  | [] => []
  | x :: xs => insertStrAsc x (sortStrAsc xs)

/-- Optional per-request constraints of the scoring engine. Absent fields mean no constraint; prefer_earth_abundant is read for truthiness. -/
structure Constraints where
  prefer_metal : Option String := none
  max_cost : Option String := none
  prefer_earth_abundant : Bool := false
  deriving DecidableEq

/-- One catalyst record of the knowledge base. Field defaults mirror the dict.get defaults of the source; ligand_smiles is the optional registered ligand structure reference read by the orchestrator. -/
structure Catalyst where
  id : String
  name : String
  abbreviation : String
  metal : String
  ligand : String
  ligand_smiles : Option String := none
  reaction_types : List String
  conditions : String := ""
  typical_loading_mol_pct : ℚ × ℚ := (5, 10)
  advantages : List String := []
  limitations : List String := []
  cost_relative : String := "medium"
  references : List String := []
  deriving DecidableEq

/-- The fixed alias table of normalize_reaction. -/
def reaction_aliases : List (String × List String) := [
  ("c_n", ["buchwald_hartwig", "c_n_coupling"]),
  ("amination", ["buchwald_hartwig", "c_n_coupling"]),
  ("coupling", ["suzuki", "heck", "sonogashira", "negishi", "kumada", "stille"]),
  ("cross_coupling", ["suzuki", "heck", "sonogashira", "negishi", "kumada", "stille"]),
  ("metathesis", ["olefin_metathesis", "ring_closing_metathesis", "cross_metathesis"]),
  ("rcm", ["ring_closing_metathesis"]),
  ("click", ["click_CuAAC", "azide_alkyne_cycloaddition"]),
  ("hydrogenation", ["hydrogenation", "asymmetric_hydrogenation", "directed_hydrogenation"])]

/-- The keys the substring scan of normalize_reaction collects: the normalized token must occur in the key as stored, or in the lowercased description. -/
def fuzzyKeys (r : String) (reaction_map : List (String × String)) : List String :=
  (reaction_map.filter (fun kd => strContains kd.1 r || strContains (pyLower kd.2) r)).map Prod.fst

/-- Alias expansion for the normalized token: the matching alias entry, empty when none matches. -/
def aliasExpansion (r : String) : List String := (reaction_aliases.lookup r).getD []

/-- normalize_reaction from catalyst_recommend.py: exact key match, else substring scan followed by alias expansion, else the literal token as fallback. The Python list(set(...)) has unspecified order and is modelled by dedup; every consumer is order-insensitive. -/
def normalize_reaction (reaction_str : String) (reaction_map : List (String × String)) : List String :=
  let r := pyNormalizeToken reaction_str
  if (reaction_map.map Prod.fst).contains r then [r]
  else
    let ms := fuzzyKeys r reaction_map ++ aliasExpansion r
    if ms = [] then [r] else ms.dedup

/-- The fixed cost tier table with its point values, in rank order (cheapest first). -/
def cost_scores : List (String × ℚ) :=
  [("very_low", 15), ("low", 12), ("medium", 9), ("high", 5), ("very_high", 2)]

/-- The tier names in rank order. -/
def cost_rank : List String := cost_scores.map Prod.fst

/-- Python list.index: position of the first occurrence, a ValueError when the value is absent. -/
def pyListIndex (l : List String) (x : String) : Except String Nat :=
  match l with
  | [] => .error (x ++ " is not in list")
  | y :: ys => if y = x then .ok 0 else (pyListIndex ys x).map (· + 1)

/-- Total index function used to state claims; it agrees with pyListIndex on members. -/
def listIdx (l : List String) (x : String) : Nat :=
  match l with
  | [] => 0
  | y :: ys => if y = x then 0 else listIdx ys x + 1

/-- The distinct requested types the catalyst covers: the set intersection of the record types and the requested types, in record order. -/
def matchedList (cat : Catalyst) (reaction_types : List String) : List String :=
  cat.reaction_types.dedup.filter (fun t => reaction_types.contains t)

/-- The two reaction types carrying the full enantioselectivity bonus. -/
def enantio_types : List String := ["asymmetric_hydrogenation", "asymmetric_isomerization"]

/-- score_catalyst from catalyst_recommend.py. Each conditional score increment of the source becomes a guarded addend, listed in source order; the ValueError that list.index raises on an unknown cost tier is an Except.error. -/
def score_catalyst (catalyst : Catalyst) (reaction_types : List String)
    (constraints : Constraints) (enantioselective : Bool) : Except String ℚ :=
  let matched := matchedList catalyst reaction_types
  if matched = [] then .ok 0 else
  let base : ℚ := 50 * (matched.length : ℚ) / (reaction_types.length : ℚ)
  let max_cost := constraints.max_cost.getD "very_high"
  let cat_cost := catalyst.cost_relative
  match pyListIndex cost_rank cat_cost with
  | .error e => .error e
  | .ok catIdx =>
    match pyListIndex cost_rank max_cost with
    | .error e => .error e
    | .ok maxIdx =>
      .ok (min 100 (base
        + (if catIdx ≤ maxIdx then (cost_scores.lookup cat_cost).getD 5 else 0)
        + (if truthyStr constraints.prefer_metal &&
              (pyLower catalyst.metal == pyLower (constraints.prefer_metal.getD "")) then 10 else 0)
        + (if constraints.prefer_earth_abundant &&
              ["Ni", "Cu", "Fe", "Zr"].contains catalyst.metal then 5 else 0)
        + (if enantioselective then
            (if catalyst.reaction_types.any (fun t => enantio_types.contains t) then 10
             else if strContains catalyst.ligand "BINAP" ||
                 strContains (pyLower catalyst.name) "chiral" then 5
             else 0)
           else 0)
        + min 5 (catalyst.advantages.length : ℚ)
        + (if catalyst.typical_loading_mol_pct.1 ≤ 1 then 5
           else if catalyst.typical_loading_mol_pct.1 ≤ 2 then 3 else 0)))

/-- One entry of the ranked result list, the dict built inside the loop of recommend. -/
structure ScoredResult where
  catalyst_id : String
  name : String
  abbreviation : String
  metal : String
  ligand : String
  score : ℚ
  matched_reactions : List String
  conditions : String
  loading_mol_pct : ℚ × ℚ
  advantages : List String
  limitations : List String
  cost : String
  references : List String
  deriving DecidableEq

/-- The result record recommend builds for an included catalyst with raw score s: the stored score is rounded to one decimal, matched_reactions is the sorted set intersection. -/
def mkResult (cat : Catalyst) (s : ℚ) (reaction_types : List String) : ScoredResult :=
  { catalyst_id := cat.id
    name := cat.name
    abbreviation := cat.abbreviation
    metal := cat.metal
    ligand := cat.ligand
    score := round1 s
    matched_reactions := sortStrAsc (matchedList cat reaction_types)
    conditions := cat.conditions
    loading_mol_pct := cat.typical_loading_mol_pct
    advantages := cat.advantages
    limitations := cat.limitations
    cost := cat.cost_relative
    references := cat.references }

/-- The scoring loop of recommend: score every catalyst in repository order and keep the strictly positive ones; a scoring exception aborts the whole request. -/
def buildResults (cats : List Catalyst) (reaction_types : List String)
    (constraints : Constraints) (enantioselective : Bool) : Except String (List ScoredResult) :=
  match cats with
  | [] => .ok []
  | cat :: rest =>
    match score_catalyst cat reaction_types constraints enantioselective with
    | .error e => .error e
    | .ok s =>
      match buildResults rest reaction_types constraints enantioselective with
      | .error e => .error e
      | .ok tail => .ok (if 0 < s then mkResult cat s reaction_types :: tail else tail)

/-- Insert keeping stored scores descending; the new element goes before the first entry whose score is not larger, so earlier elements stay first on ties. -/
def insertScoreDesc (x : ScoredResult) : List ScoredResult → List ScoredResult
  | [] => [x]
  | y :: ys => if y.score ≤ x.score then x :: y :: ys else y :: insertScoreDesc x ys

/-- Stable descending sort on the stored score, modelling the stable Python list.sort with the score key and reverse set. -/
def sortScoreDesc : List ScoredResult → List ScoredResult
  | [] => []
  | x :: xs => insertScoreDesc x (sortScoreDesc xs)

/-- The loaded knowledge base artifact: the record list plus the reaction type vocabulary, in file order. -/
structure Db where
  catalysts : List Catalyst
  reaction_type_map : List (String × String)

/-- The structured response of recommend. -/
structure RecommendOutput where
  agent : String
  version : String
  action : String
  query_reaction : String
  normalized_types : List String
  substrate : Option String
  constraints : Constraints
  enantioselective : Bool
  results : List ScoredResult
  total_matches : Nat
  status : String
  suggestion : Option String
  deriving DecidableEq

/-- recommend from catalyst_recommend.py, parametrised by the loaded database. -/
def recommend (db : Db) (reaction : String) (substrate : Option String)
    (constraints : Constraints) (enantioselective : Bool) : Except String RecommendOutput :=
  let reaction_types := normalize_reaction reaction db.reaction_type_map
  match buildResults db.catalysts reaction_types constraints enantioselective with
  | .error e => .error e
  | .ok raw =>
    let results := sortScoreDesc raw
    .ok {
      agent := "catalyst-design"
      version := "1.0.0"
      action := "recommend"
      query_reaction := reaction
      normalized_types := reaction_types
      substrate := substrate
      constraints := constraints
      enantioselective := enantioselective
      results := results
      total_matches := results.length
      status := if results = [] then "no_matches" else "success"
      suggestion := if results = [] then
          some ("No catalysts found for \x27" ++ reaction ++
            "\x27. Try broader terms like \x27coupling\x27 or \x27hydrogenation\x27.")
        else none }

/-- Order-characterisation of the scoring loop output: the included results in repository first-seen order. -/
def includedList (cats : List Catalyst) (reaction_types : List String)
    (constraints : Constraints) (enantioselective : Bool) : List ScoredResult :=
  cats.filterMap (fun cat =>
    match score_catalyst cat reaction_types constraints enantioselective with
    | .ok s => if 0 < s then some (mkResult cat s reaction_types) else none
    | .error _ => none)

/-- One atom of an abstract molecule: element symbol, aromaticity flag, and neighbor indices into the atom list of its molecule. -/
structure MolAtom where
  symbol : String
  isAromatic : Bool
  neighbors : List Nat
  deriving DecidableEq

/-- The chemistry toolkit collaborator (RDKit in the source), modelled as a record of deterministic operations over an abstract molecule type. Atom indices are positions in the atoms list; sanitize returns none where the toolkit raises, and also yields the sanitized molecule that the source serialises right after the in-place sanitisation. -/
structure Toolkit (Mol : Type) where
  parseSmiles : String → Option Mol
  toSmiles : Mol → String
  addHs : Mol → Mol
  removeHs : Mol → Mol
  atoms : Mol → List MolAtom
  combineMols : Mol → Mol → Mol
  addBond : Mol → Nat → Nat → Mol
  sanitize : Mol → Option Mol
  molWt : Mol → ℚ
  molLogP : Mol → ℚ
  numHAcceptors : Mol → Nat
  numHDonors : Mol → Nat
  numRotatableBonds : Mol → Nat
  numAromaticRings : Mol → Nat
  numHeavyAtoms : Mol → Nat
  numChiralCenters : Mol → Nat

/-- The computed property record of compute_ligand_props. -/
structure LigandProps where
  smiles : String
  MW : ℚ
  logP : ℚ
  HBA : Nat
  HBD : Nat
  rotatable_bonds : Nat
  aromatic_rings : Nat
  heavy_atoms : Nat
  has_phosphorus : Bool
  has_nitrogen : Bool
  num_stereocenters : Nat
  deriving DecidableEq

/-- compute_ligand_props from ligand_designer.py: none exactly when the structure string fails to parse. -/
def compute_ligand_props {M : Type} (tk : Toolkit M) (smiles : String) : Option LigandProps :=
  match tk.parseSmiles smiles with
  | none => none
  | some mol => some {
      smiles := tk.toSmiles mol
      MW := round2 (tk.molWt mol)
      logP := round2 (tk.molLogP mol)
      HBA := tk.numHAcceptors mol
      HBD := tk.numHDonors mol
      rotatable_bonds := tk.numRotatableBonds mol
      aromatic_rings := tk.numAromaticRings mol
      heavy_atoms := tk.numHeavyAtoms mol
      has_phosphorus := (tk.atoms mol).any (fun a => a.symbol == "P")
      has_nitrogen := (tk.atoms mol).any (fun a => a.symbol == "N")
      num_stereocenters := tk.numChiralCenters mol }

/-- One generated or suggested variant. Fields absent from a source dict are none. -/
structure Variant where
  modification : String
  description : String
  strategy : String
  properties : Option LigandProps
  rationale : Option String
  literature : Option (List String)
  deriving DecidableEq

/-- Whether some neighbor of atom a carries the given element symbol. -/
def neighborHasSymbol (ats : List MolAtom) (a : MolAtom) (sym : String) : Bool :=
  a.neighbors.any (fun i =>
    match ats.get? i with
    | some n => n.symbol == sym
    | none => false)

/-- Indices of aromatic carbons bearing a hydrogen neighbor, in atom order. -/
def aromaticCHIdxs (ats : List MolAtom) : List Nat :=
  (ats.enum.filter (fun ia =>
    ia.2.symbol == "C" && ia.2.isAromatic && neighborHasSymbol ats ia.2 "H")).map Prod.fst

/-- The fixed steric substituent list, in source order. -/
def steric_substituents : List (String × String) :=
  [("methyl", "C"), ("isopropyl", "C(C)C"), ("tert-butyl", "C(C)(C)C")]

/-- One iteration of the steric loop: none models every skip-and-continue path of the source (no aromatic C-H, no H neighbor, unparsable substituent, sanitisation failure, unparsable product). -/
def stericStep {M : Type} (tk : Toolkit M) (mol : M) (sub : String × String) : Option Variant :=
  let mol_h := tk.addHs mol
  let atsH := tk.atoms mol_h
  match aromaticCHIdxs atsH with
  | [] => none
  | target :: _ =>
    let hasH := match atsH.get? target with
      | some a => neighborHasSymbol atsH a "H"
      | none => false
    if hasH then
      match tk.parseSmiles sub.2 with
      | none => none
      | some sub_mol =>
        let n_atoms_orig := (tk.atoms mol).length
        let combined := tk.addBond (tk.combineMols (tk.removeHs mol) sub_mol) target n_atoms_orig
        match tk.sanitize combined with
        | none => none
        | some clean =>
          match compute_ligand_props tk (tk.toSmiles clean) with
          | none => none
          | some props => some {
              modification := "steric_" ++ sub.1
              description := "Added " ++ sub.1 ++ " group to aromatic ring"
              strategy := "steric"
              properties := some props
              rationale := none
              literature := none }
    else none

/-- generate_steric_variants from ligand_designer.py. -/
def generate_steric_variants {M : Type} (tk : Toolkit M) (smiles : String) : List Variant :=
  match tk.parseSmiles smiles with
  | none => []
  | some mol => steric_substituents.filterMap (stericStep tk mol)

/-- The fixed electronic substituent list, in source order. -/
def electronic_substituents : List (String × String) :=
  [("para-OMe (e-donating)", "OC"), ("para-F (mild e-withdrawing)", "F"),
   ("para-CF3 (e-withdrawing)", "C(F)(F)F")]

/-- Indices of aromatic carbons not bonded to phosphorus, in atom order. -/
def aromaticNonPIdxs (ats : List MolAtom) : List Nat :=
  (ats.enum.filter (fun ia =>
    ia.2.isAromatic && ia.2.symbol == "C" && !(neighborHasSymbol ats ia.2 "P"))).map Prod.fst

/-- One iteration of the electronic loop; the attachment site is the last qualifying atom in toolkit order. -/
def electronicStep {M : Type} (tk : Toolkit M) (mol : M) (sub : String × String) : Option Variant :=
  match tk.parseSmiles sub.2 with
  | none => none
  | some sub_mol =>
    match (aromaticNonPIdxs (tk.atoms mol)).getLast? with
    | none => none
    | some target =>
      let combined := tk.addBond (tk.combineMols mol sub_mol) target (tk.atoms mol).length
      match tk.sanitize combined with
      | none => none
      | some clean =>
        match compute_ligand_props tk (tk.toSmiles clean) with
        | none => none
        | some props => some {
            modification := sub.1
            description := "Added " ++ sub.1 ++ " to tune electronics"
            strategy := "electronic"
            properties := some props
            rationale := none
            literature := none }

/-- generate_electronic_variants from ligand_designer.py. -/
def generate_electronic_variants {M : Type} (tk : Toolkit M) (smiles : String) : List Variant :=
  match tk.parseSmiles smiles with
  | none => []
  | some mol => electronic_substituents.filterMap (electronicStep tk mol)

/-- The first phosphorus-gated bioisosteric suggestion. -/
def pToNHC : Variant :=
  { modification := "P→NHC replacement"
    description := "Replace phosphine with N-heterocyclic carbene (NHC). NHCs are stronger σ-donors with no π-acceptor character, often giving more active and stable catalysts. Well-proven in Pd, Ru, Au catalysis."
    strategy := "bioisosteric"
    properties := none
    rationale := some "NHC ligands form stronger M-C bonds vs M-P, resist oxidation, and provide tunable steric environment via N-substituents."
    literature := some ["Chem. Rev. 2009, 109, 3612 (Diez-Gonzalez et al.)"] }

/-- The second phosphorus-gated bioisosteric suggestion. -/
def pToPhosphite : Variant :=
  { modification := "Phosphine → phosphite (P(OR)3)"
    description := "Replace PR3 with P(OR)3. Phosphites are stronger π-acceptors, making the metal more electrophilic. Useful when oxidative addition is easy but reductive elimination is slow."
    strategy := "bioisosteric"
    properties := none
    rationale := some "Lower σ-donor / higher π-acceptor shifts the electronic balance. Good for electron-rich substrates."
    literature := none }

/-- The first aromatic-gated bioisosteric suggestion. -/
def phenylToPyridyl : Variant :=
  { modification := "Phenyl → 2-pyridyl (hemilabile)"
    description := "Replace one phenyl ring with 2-pyridyl to create a hemilabile coordination site. The pyridyl N can coordinate/dissociate dynamically, creating an open site for substrate binding."
    strategy := "bioisosteric"
    properties := none
    rationale := some "Hemilabile ligands improve catalyst longevity and substrate turnover in challenging reactions."
    literature := none }

/-- The second aromatic-gated bioisosteric suggestion. -/
def phenylToMesityl : Variant :=
  { modification := "Phenyl → mesityl (steric + electronic)"
    description := "Replace phenyl with 2,4,6-trimethylphenyl (mesityl). Adds steric protection around the metal center while maintaining aromaticity."
    strategy := "bioisosteric"
    properties := none
    rationale := some "Mesityl groups prevent catalyst deactivation through dimerization and provide moderate electron donation."
    literature := none }

/-- generate_bioisosteric_suggestions from ligand_designer.py: purely feature-gated, no toolkit edit. -/
def generate_bioisosteric_suggestions {M : Type} (tk : Toolkit M) (smiles : String) : List Variant :=
  match tk.parseSmiles smiles with
  | none => []
  | some mol =>
    let ats := tk.atoms mol
    let has_P := ats.any (fun a => a.symbol == "P")
    let has_aromatic := ats.any (fun a => a.isAromatic)
    (if has_P then [pToNHC, pToPhosphite] else []) ++
      (if has_aromatic then [phenylToPyridyl, phenylToMesityl] else [])

/-- The fixed ligand-name alias table of the designer. -/
def LIGAND_ALIASES : List (String × String) := [
  ("PPh3", "c1ccc(cc1)P(c1ccccc1)c1ccccc1"),
  ("triphenylphosphine", "c1ccc(cc1)P(c1ccccc1)c1ccccc1"),
  ("PCy3", "C1(CCCCC1)P(C1CCCCC1)C1CCCCC1"),
  ("tricyclohexylphosphine", "C1(CCCCC1)P(C1CCCCC1)C1CCCCC1"),
  ("dppe", "c1ccc(cc1)P(CCP(c1ccccc1)c1ccccc1)c1ccccc1"),
  ("dppp", "c1ccc(cc1)P(CCCP(c1ccccc1)c1ccccc1)c1ccccc1"),
  ("NHC_IMes", "Cc1cc(C)cc(c1)N1C=CN(c2cc(C)cc(C)c2)C1"),
  ("NHC_IPr", "CC(C)c1cccc(C(C)C)c1N1C=CN(c2c(C(C)C)cccc2C(C)C)C1")]

/-- resolve_scaffold from ligand_designer.py: alias lookup with literal fallback. -/
def resolve_scaffold (scaffold : String) : String :=
  (LIGAND_ALIASES.lookup scaffold).getD scaffold

/-- The structured response of design_ligands. Keys missing from the source dict are none; the error dict of the unparsable case carries no scaffold, variants, totals or hints. -/
structure DesignResult where
  agent : String
  version : String
  action : String
  status : String
  error : Option String
  scaffold_input : Option String
  scaffold_smiles : Option String
  base_properties : Option LigandProps
  variants : Option (List Variant)
  total_variants : Option Nat
  recommend_next : Option (List String)
  deriving DecidableEq

/-- design_ligands from ligand_designer.py, without the optional image-rendering and file-output side effects. -/
def design_ligands {M : Type} (tk : Toolkit M) (scaffold : String) (strategy : String) : DesignResult :=
  let smiles := resolve_scaffold scaffold
  match compute_ligand_props tk smiles with
  | none =>
    { agent := "catalyst-design"
      version := "1.0.0"
      action := "design_ligand"
      status := "error"
      error := some ("Could not parse scaffold SMILES: " ++ smiles)
      scaffold_input := none
      scaffold_smiles := none
      base_properties := none
      variants := none
      total_variants := none
      recommend_next := none }
  | some base_props =>
    let vs :=
      (if strategy == "steric" || strategy == "all" then generate_steric_variants tk smiles else []) ++
      (if strategy == "electronic" || strategy == "all" then generate_electronic_variants tk smiles else []) ++
      (if strategy == "bioisosteric" || strategy == "all" then generate_bioisosteric_suggestions tk smiles else [])
    { agent := "catalyst-design"
      version := "1.0.0"
      action := "design_ligand"
      status := "success"
      error := none
      scaffold_input := some scaffold
      scaffold_smiles := some smiles
      base_properties := some base_props
      variants := some vs
      total_variants := some vs.length
      recommend_next := some ["catalyst_recommend", "chemistry-query", "ip-expansion"] }

/-- The variant list a consumer reads from a design result: a missing variants key reads as the empty list, exactly as the orchestrator treats it with dict.get. -/
def variantsOf (r : DesignResult) : List Variant := r.variants.getD []

/-- The unified request of the orchestrator. A key present in the JSON input is some. -/
structure ChainInput where
  reaction : Option String := none
  reaction_type : Option String := none
  substrate : Option String := none
  smiles : Option String := none
  constraints : Option Constraints := none
  enantioselective : Option Bool := none
  scaffold : Option String := none
  ligand : Option String := none
  strategy : Option String := none
  draw : Option Bool := none
  context : Option String := none

/-- Key-presence test for the reaction-like fields. -/
def hasReactionField (i : ChainInput) : Bool := i.reaction.isSome || i.reaction_type.isSome

/-- Key-presence test for the scaffold-like fields. -/
def hasScaffoldField (i : ChainInput) : Bool := i.scaffold.isSome || i.ligand.isSome

/-- The unified report of chain_run. The wall-clock timestamp of the source is outside the model. -/
structure ChainReport where
  agent : String
  version : String
  context : String
  status : String
  recommendation : Option RecommendOutput
  ligand_design : Option DesignResult
  ligand_optimization : Option DesignResult
  recommend_next : List String
  deriving DecidableEq

/-- The recommendation branch of chain_run. A present reaction key whose usable value is empty makes the Python code call recommend with None, which raises; that path is an error here. -/
def recPart (db : Db) (input : ChainInput) : Except String (Option RecommendOutput) :=
  if hasReactionField input then
    match pyOr input.reaction input.reaction_type with
    | none => .error "TypeError: reaction descriptor is None"
    | some r =>
      match recommend db r (pyOr input.substrate input.smiles)
          (input.constraints.getD {}) (input.enantioselective.getD false) with
      | .error e => .error e
      | .ok out => .ok (some out)
  else .ok none

/-- The ligand-design branch of chain_run. -/
def ldPart {M : Type} (tk : Toolkit M) (input : ChainInput) : Except String (Option DesignResult) :=
  if hasScaffoldField input then
    match pyOr input.scaffold input.ligand with
    | none => .error "TypeError: scaffold is None"
    | some sc => .ok (some (design_ligands tk sc (input.strategy.getD "all")))
  else .ok none

/-- The auto-chain step of chain_run: only for a reaction request without scaffold whose recommendation has results; the top entry must have a truthy abbreviation and its database record a truthy ligand_smiles. -/
def autoChain {M : Type} (db : Db) (tk : Toolkit M) (input : ChainInput)
    (recommendation : Option RecommendOutput) : Option DesignResult :=
  if hasReactionField input && !hasScaffoldField input then
    match recommendation with
    | some out =>
      match out.results with
      | [] => none
      | top :: _ =>
        if top.abbreviation ≠ "" then
          match db.catalysts.find? (fun cat =>
              cat.id == top.catalyst_id && truthyStr cat.ligand_smiles) with
          | some cat => some (design_ligands tk (cat.ligand_smiles.getD "") "all")
          | none => none
        else none
    | none => none
  else none

/-- chain_run from chain_entry.py, parametrised by the database and the toolkit. -/
def chain_run {M : Type} (db : Db) (tk : Toolkit M) (input : ChainInput) : Except String ChainReport :=
  match recPart db input with
  | .error e => .error e
  | .ok recommendation =>
    match ldPart tk input with
    | .error e => .error e
    | .ok ligand_design =>
      let ligand_optimization := autoChain db tk input recommendation
      let rn1 := if ((recommendation.map RecommendOutput.results).getD []) ≠ [] then
          ["chemistry-query", "pharmacology"] else []
      let rn2 := if ((ligand_design.bind DesignResult.variants).getD []) ≠ [] then
          ["ip-expansion", "chemistry-query"] else []
      .ok {
        agent := "catalyst-design"
        version := "1.0.0"
        context := input.context.getD "user"
        status := if recommendation.isSome || ligand_design.isSome || ligand_optimization.isSome
          then "success" else "error"
        recommendation := recommendation
        ligand_design := ligand_design
        ligand_optimization := ligand_optimization
        recommend_next := sortStrAsc ((rn1 ++ rn2).dedup) }

/-- Reaction coverage sub-score: 50 times the matched count over the requested count. -/
def coverageScore (cat : Catalyst) (rts : List String) : ℚ :=
  50 * ((matchedList cat rts).length : ℚ) / (rts.length : ℚ)

/-- Cost sub-score: the tier points of the catalyst, granted only when its tier rank is at most the rank of the max_cost constraint, which defaults to very_high. -/
def costScore (cat : Catalyst) (c : Constraints) : ℚ :=
  if listIdx cost_rank cat.cost_relative ≤ listIdx cost_rank (c.max_cost.getD "very_high")
  then (cost_scores.lookup cat.cost_relative).getD 5 else 0

/-- Metal preference sub-score: 10 when prefer_metal is set and equals the catalyst metal case-insensitively. -/
def metalScore (cat : Catalyst) (c : Constraints) : ℚ :=
  if truthyStr c.prefer_metal && (pyLower cat.metal == pyLower (c.prefer_metal.getD ""))
  then 10 else 0

/-- Earth-abundance sub-score: 5 when requested and the metal is Ni, Cu, Fe or Zr. -/
def earthScore (cat : Catalyst) (c : Constraints) : ℚ :=
  if c.prefer_earth_abundant && ["Ni", "Cu", "Fe", "Zr"].contains cat.metal then 5 else 0

/-- Enantioselectivity sub-score: 10 for a catalyst covering an asymmetric type, else 5 on the BINAP or chiral text markers, only when the flag is set. -/
def enantioScore (cat : Catalyst) (e : Bool) : ℚ :=
  if e then
    (if cat.reaction_types.any (fun t => enantio_types.contains t) then 10
     else if strContains cat.ligand "BINAP" || strContains (pyLower cat.name) "chiral" then 5
     else 0)
  else 0

/-- Low-loading sub-score: 5 when the minimum typical loading is at most 1, else 3 when at most 2, else 0. -/
def loadingScore (cat : Catalyst) : ℚ :=
  if cat.typical_loading_mol_pct.1 ≤ 1 then 5
  else if cat.typical_loading_mol_pct.1 ≤ 2 then 3 else 0

/-- The full additive score before the final clip at 100. -/
def scoreSum (cat : Catalyst) (rts : List String) (c : Constraints) (e : Bool) : ℚ :=
  coverageScore cat rts + costScore cat c + metalScore cat c + earthScore cat c +
    enantioScore cat e + min 5 (cat.advantages.length : ℚ) + loadingScore cat

/-- Modelled from the spec: the reaction_type_map of the knowledge base artifact catalyst_database.json, which is not under src. Keys follow the data model, the testable properties and the glossary of the spec (canonical keys such as suzuki and buchwald_hartwig, plus the keys the fixed alias table targets); descriptions are the human text of each key. -/
def reaction_type_map_model : List (String × String) := [
  ("suzuki", "Suzuki-Miyaura coupling of aryl halides with boronic acids"),
  ("heck", "Mizoroki-Heck coupling of aryl halides with alkenes"),
  ("sonogashira", "Sonogashira coupling of aryl halides with terminal alkynes"),
  ("negishi", "Negishi coupling with organozinc reagents"),
  ("kumada", "Kumada coupling with Grignard reagents"),
  ("stille", "Stille coupling with organostannanes"),
  ("buchwald_hartwig", "Buchwald-Hartwig coupling of amines with aryl halides"),
  ("c_n_coupling", "General carbon-nitrogen bond forming coupling"),
  ("olefin_metathesis", "Olefin metathesis"),
  ("ring_closing_metathesis", "Ring closing metathesis of dienes"),
  ("cross_metathesis", "Cross metathesis of two alkenes"),
  ("click_CuAAC", "Copper catalysed azide-alkyne cycloaddition"),
  ("azide_alkyne_cycloaddition", "Azide-alkyne cycloaddition"),
  ("hydrogenation", "Hydrogenation of alkenes and ketones"),
  ("asymmetric_hydrogenation", "Asymmetric hydrogenation with chiral ligands"),
  ("directed_hydrogenation", "Substrate directed hydrogenation"),
  ("asymmetric_isomerization", "Asymmetric olefin isomerization")]

/-- Concrete catalyst fixture used by witnesses. -/
def catW : Catalyst :=
  { id := "catW"
    name := "Tetrakis"
    abbreviation := "Pd(PPh3)4"
    metal := "Pd"
    ligand := "PPh3"
    reaction_types := ["suzuki"]
    typical_loading_mol_pct := (1/2, 1)
    advantages := ["air stable precursor", "broad scope"]
    cost_relative := "low" }

/-- Concrete database fixture for the recommend witnesses. -/
def db5 : Db := { catalysts := [catW], reaction_type_map := reaction_type_map_model }

/-- Catalyst whose cost data feeds the uncaught-exception scenario. -/
def cat9 : Catalyst :=
  { id := "cat9"
    name := "Nikel cat"
    abbreviation := "NiX"
    metal := "Ni"
    ligand := "dppe"
    reaction_types := ["suzuki"]
    cost_relative := "low" }

/-- Database fixture for the uncaught-exception scenario. -/
def db9 : Db := { catalysts := [cat9], reaction_type_map := reaction_type_map_model }

/-- Trivial toolkit over a unit molecule type: everything parses, molecules have no atoms. -/
def tkUnit : Toolkit Unit :=
  { parseSmiles := fun _ => some ()
    toSmiles := fun _ => ""
    addHs := fun m => m
    removeHs := fun m => m
    atoms := fun _ => []
    combineMols := fun _ _ => ()
    addBond := fun m _ _ => m
    sanitize := fun m => some m
    molWt := fun _ => 0
    molLogP := fun _ => 0
    numHAcceptors := fun _ => 0
    numHDonors := fun _ => 0
    numRotatableBonds := fun _ => 0
    numAromaticRings := fun _ => 0
    numHeavyAtoms := fun _ => 0
    numChiralCenters := fun _ => 0 }

/-- Toolkit over a unit molecule type whose parser rejects everything. -/
def tkFail : Toolkit Unit :=
  { tkUnit with parseSmiles := fun _ => none }

/-- Catalyst with a registered ligand structure reference but an empty abbreviation, for the auto-chain counterexample. -/
def cat8 : Catalyst :=
  { id := "cat8"
    name := "NoAbbrev"
    abbreviation := ""
    metal := "Pd"
    ligand := "PPh3"
    ligand_smiles := some "c1ccc(cc1)P(c1ccccc1)c1ccccc1"
    reaction_types := ["suzuki"]
    cost_relative := "medium" }

/-- Database fixture for the auto-chain counterexample. -/
def db8 : Db := { catalysts := [cat8], reaction_type_map := [("suzuki", "suzuki coupling")] }

/-- Reaction-only orchestrator input fixture. -/
def in8 : ChainInput := { reaction := some "suzuki" }

/-- Vocabulary of thirteen keys that all contain the token xx, so normalize yields thirteen requested types. -/
def rmap10 : List (String × String) := [
  ("xxk01", "aa"), ("xxk02", "aa"), ("xxk03", "aa"), ("xxk04", "aa"), ("xxk05", "aa"),
  ("xxk06", "aa"), ("xxk07", "aa"), ("xxk08", "aa"), ("xxk09", "aa"), ("xxk10", "aa"),
  ("xxk11", "aa"), ("xxk12", "aa"), ("xxk13", "aa")]

/-- First-seen catalyst: covers eight of the thirteen types, very_high cost, no bonuses beyond cost. -/
def catB10 : Catalyst :=
  { id := "catB"
    name := "B"
    abbreviation := "B"
    metal := "Ni"
    ligand := "L"
    reaction_types := ["xxk01", "xxk02", "xxk03", "xxk04", "xxk05", "xxk06", "xxk07", "xxk08"]
    cost_relative := "very_high" }

/-- Later catalyst: covers one type but collects 29 integer bonus points, so its exact score exceeds the first one while both round to the same decimal. -/
def catA10 : Catalyst :=
  { id := "catA"
    name := "A"
    abbreviation := "A"
    metal := "Pd"
    ligand := "L"
    reaction_types := ["xxk01"]
    advantages := ["a1", "a2", "a3", "a4"]
    cost_relative := "very_low" }

/-- Database fixture for the rounded-sort-key demonstration. -/
def db10 : Db := { catalysts := [catB10, catA10], reaction_type_map := rmap10 }

/-- Constraints fixture preferring palladium. -/
def c10 : Constraints := { prefer_metal := some "Pd" }

theorem contains_true_iff {l : List String} {a : String} : l.contains a = true ↔ a ∈ l := by
  induction l with
  | nil => simp
  | cons y ys ih =>
    simp only [List.contains_cons, Bool.or_eq_true, beq_iff_eq, List.mem_cons, ih]
    try tauto

theorem mem_insertScoreDesc {x y : ScoredResult} {l : List ScoredResult} :
    y ∈ insertScoreDesc x l ↔ y = x ∨ y ∈ l := by
  induction l with
  | nil => simp [insertScoreDesc]
  | cons z zs ih =>
    unfold insertScoreDesc
    split
    · simp [List.mem_cons]
    · simp only [List.mem_cons, ih]
      tauto

theorem mem_sortScoreDesc {y : ScoredResult} {l : List ScoredResult} :
    y ∈ sortScoreDesc l ↔ y ∈ l := by
  induction l with
  | nil => simp [sortScoreDesc]
  | cons x xs ih =>
    show y ∈ insertScoreDesc x (sortScoreDesc xs) ↔ _
    rw [mem_insertScoreDesc, ih]
    simp only [List.mem_cons]
    try tauto

theorem pairwise_insertScoreDesc {x : ScoredResult} {l : List ScoredResult}
    (h : l.Pairwise (fun a b => b.score ≤ a.score)) :
    (insertScoreDesc x l).Pairwise (fun a b => b.score ≤ a.score) := by
  induction l with
  | nil => simp [insertScoreDesc]
  | cons z zs ih =>
    rw [List.pairwise_cons] at h
    obtain ⟨hz, hzs⟩ := h
    unfold insertScoreDesc
    split
    case isTrue hle =>
      rw [List.pairwise_cons]
      refine ⟨?_, List.pairwise_cons.mpr ⟨hz, hzs⟩⟩
      intro b hb
      rcases List.mem_cons.mp hb with rfl | hb
      · exact hle
      · exact le_trans (hz b hb) hle
    case isFalse hlt =>
      rw [List.pairwise_cons]
      refine ⟨?_, ih hzs⟩
      intro b hb
      rcases mem_insertScoreDesc.mp hb with rfl | hb
      · exact le_of_lt (not_le.mp hlt)
      · exact hz b hb

theorem pairwise_sortScoreDesc (l : List ScoredResult) :
    (sortScoreDesc l).Pairwise (fun a b => b.score ≤ a.score) := by
  induction l with
  | nil => simp [sortScoreDesc]
  | cons x xs ih => exact pairwise_insertScoreDesc ih

theorem filter_insertScoreDesc (x : ScoredResult) (l : List ScoredResult) (q : ℚ) :
    (insertScoreDesc x l).filter (fun z => decide (z.score = q)) =
      if x.score = q then x :: l.filter (fun z => decide (z.score = q))
      else l.filter (fun z => decide (z.score = q)) := by
  induction l with
  | nil =>
    by_cases hx : x.score = q <;> simp [insertScoreDesc, List.filter, hx]
  | cons z zs ih =>
    unfold insertScoreDesc
    split
    case isTrue hle =>
      by_cases hx : x.score = q <;> by_cases hz : z.score = q <;>
        simp [List.filter_cons, hx, hz]
    case isFalse hlt =>
      by_cases hx : x.score = q
      · have hz : ¬ z.score = q := by
          intro hzq
          exact hlt (le_of_eq (hx ▸ hzq))
        simp [List.filter_cons, hz, ih, hx]
      · by_cases hz : z.score = q <;> simp [List.filter_cons, hz, ih, hx]

theorem filter_sortScoreDesc (l : List ScoredResult) (q : ℚ) :
    (sortScoreDesc l).filter (fun z => decide (z.score = q)) =
      l.filter (fun z => decide (z.score = q)) := by
  induction l with
  | nil => simp [sortScoreDesc]
  | cons x xs ih =>
    show (insertScoreDesc x (sortScoreDesc xs)).filter _ = _
    rw [filter_insertScoreDesc, ih]
    by_cases hx : x.score = q <;> simp [List.filter_cons, hx]

theorem pyListIndex_ok {l : List String} {x : String} (h : x ∈ l) :
    pyListIndex l x = .ok (listIdx l x) := by
  induction l with
  | nil => cases h
  | cons y ys ih =>
    unfold pyListIndex listIdx
    by_cases hyx : y = x
    · simp [hyx]
    · have hx : x ∈ ys := by
        rcases List.mem_cons.mp h with rfl | h'
        · exact absurd rfl hyx
        · exact h'
      simp [hyx, ih hx, Except.map]

theorem pyListIndex_mem {l : List String} {x : String} {n : Nat}
    (h : pyListIndex l x = .ok n) : x ∈ l := by
  induction l generalizing n with
  | nil => simp [pyListIndex] at h
  | cons y ys ih =>
    unfold pyListIndex at h
    by_cases hyx : y = x
    · simp [hyx]
    · rw [if_neg hyx] at h
      cases hp : pyListIndex ys x with
      | error e => rw [hp] at h; simp [Except.map] at h
      | ok m => exact List.mem_cons_of_mem _ (ih hp)

theorem matchedList_nodup (cat : Catalyst) (rts : List String) :
    (matchedList cat rts).Nodup :=
  (cat.reaction_types.nodup_dedup).filter _

theorem matchedList_subset (cat : Catalyst) (rts : List String) :
    ∀ t ∈ matchedList cat rts, t ∈ rts := by
  intro t ht
  have h2 := (List.mem_filter.mp ht).2
  exact contains_true_iff.mp h2

theorem matchedList_length_le (cat : Catalyst) (rts : List String) :
    (matchedList cat rts).length ≤ rts.length := by
  have hnd := matchedList_nodup cat rts
  calc (matchedList cat rts).length = (matchedList cat rts).toFinset.card :=
        (List.toFinset_card_of_nodup hnd).symm
    _ ≤ rts.toFinset.card := by
        apply Finset.card_le_card
        intro a ha
        rw [List.mem_toFinset] at ha ⊢
        exact matchedList_subset cat rts a ha
    _ ≤ rts.length := rts.toFinset_card_le

theorem matchedList_nil (cat : Catalyst) : matchedList cat [] = [] := by
  unfold matchedList
  simp [List.filter_eq_nil]

theorem tierPoints_bounds (t : String) :
    0 ≤ (cost_scores.lookup t).getD 5 ∧ (cost_scores.lookup t).getD 5 ≤ 15 := by
  simp only [cost_scores, List.lookup]
  repeat' split
  all_goals norm_num

theorem coverageScore_nonneg (cat : Catalyst) (rts : List String) :
    0 ≤ coverageScore cat rts := by
  unfold coverageScore
  positivity

theorem coverageScore_le_50 (cat : Catalyst) (rts : List String) :
    coverageScore cat rts ≤ 50 := by
  unfold coverageScore
  by_cases hn : rts.length = 0
  · simp [hn]
  · have hn0 : (0:ℚ) < (rts.length : ℚ) := by
      exact_mod_cast Nat.pos_of_ne_zero hn
    rw [div_le_iff hn0]
    have hm : ((matchedList cat rts).length : ℚ) ≤ (rts.length : ℚ) := by
      exact_mod_cast matchedList_length_le cat rts
    linarith

theorem costScore_bounds (cat : Catalyst) (c : Constraints) :
    0 ≤ costScore cat c ∧ costScore cat c ≤ 15 := by
  unfold costScore
  split
  · exact tierPoints_bounds _
  · norm_num

theorem metalScore_bounds (cat : Catalyst) (c : Constraints) :
    0 ≤ metalScore cat c ∧ metalScore cat c ≤ 10 := by
  unfold metalScore
  split <;> norm_num

theorem earthScore_bounds (cat : Catalyst) (c : Constraints) :
    0 ≤ earthScore cat c ∧ earthScore cat c ≤ 5 := by
  unfold earthScore
  split <;> norm_num

theorem enantioScore_bounds (cat : Catalyst) (e : Bool) :
    0 ≤ enantioScore cat e ∧ enantioScore cat e ≤ 10 := by
  unfold enantioScore
  repeat' split
  all_goals norm_num

theorem loadingScore_bounds (cat : Catalyst) :
    0 ≤ loadingScore cat ∧ loadingScore cat ≤ 5 := by
  unfold loadingScore
  repeat' split
  all_goals norm_num

theorem advBonus_bounds (cat : Catalyst) :
    0 ≤ min 5 (cat.advantages.length : ℚ) ∧ min 5 (cat.advantages.length : ℚ) ≤ 5 := by
  constructor
  · apply le_min <;> positivity
  · exact min_le_left _ _

theorem scoreSum_le_100 (cat : Catalyst) (rts : List String) (c : Constraints) (e : Bool) :
    scoreSum cat rts c e ≤ 100 := by
  unfold scoreSum
  have h1 := coverageScore_le_50 cat rts
  have h2 := (costScore_bounds cat c).2
  have h3 := (metalScore_bounds cat c).2
  have h4 := (earthScore_bounds cat c).2
  have h5 := (enantioScore_bounds cat e).2
  have h6 := (advBonus_bounds cat).2
  have h7 := (loadingScore_bounds cat).2
  linarith

theorem coverage_le_scoreSum (cat : Catalyst) (rts : List String) (c : Constraints) (e : Bool) :
    coverageScore cat rts ≤ scoreSum cat rts c e := by
  unfold scoreSum
  have h2 := (costScore_bounds cat c).1
  have h3 := (metalScore_bounds cat c).1
  have h4 := (earthScore_bounds cat c).1
  have h5 := (enantioScore_bounds cat e).1
  have h6 := (advBonus_bounds cat).1
  have h7 := (loadingScore_bounds cat).1
  linarith

theorem score_catalyst_eq (cat : Catalyst) (rts : List String) (c : Constraints) (e : Bool)
    (hc : cat.cost_relative ∈ cost_rank)
    (hm : c.max_cost.getD "very_high" ∈ cost_rank)
    (hne : matchedList cat rts ≠ []) :
    score_catalyst cat rts c e = .ok (min 100 (scoreSum cat rts c e)) := by
  simp only [score_catalyst, pyListIndex_ok hc, pyListIndex_ok hm, if_neg hne]
  simp only [Except.ok.injEq]
  unfold scoreSum coverageScore costScore metalScore earthScore enantioScore loadingScore
  rfl

theorem score_catalyst_empty (cat : Catalyst) (rts : List String) (c : Constraints) (e : Bool)
    (hne : matchedList cat rts = []) :
    score_catalyst cat rts c e = .ok 0 := by
  simp [score_catalyst, hne]

theorem score_catalyst_ok_inv {cat : Catalyst} {rts : List String} {c : Constraints} {e : Bool}
    {s : ℚ} (h : score_catalyst cat rts c e = .ok s) :
    (matchedList cat rts = [] ∧ s = 0) ∨
    (matchedList cat rts ≠ [] ∧ cat.cost_relative ∈ cost_rank ∧
      c.max_cost.getD "very_high" ∈ cost_rank ∧ s = min 100 (scoreSum cat rts c e)) := by
  by_cases hne : matchedList cat rts = []
  · left
    refine ⟨hne, ?_⟩
    rw [score_catalyst_empty cat rts c e hne] at h
    exact (Except.ok.inj h).symm
  · right
    refine ⟨hne, ?_⟩
    have h' := h
    simp only [score_catalyst, if_neg hne] at h'
    cases hci : pyListIndex cost_rank cat.cost_relative with
    | error err => simp only [hci] at h'; exact Except.noConfusion h'
    | ok ci =>
      simp only [hci] at h'
      cases hmi : pyListIndex cost_rank (c.max_cost.getD "very_high") with
      | error err => simp only [hmi] at h'; exact Except.noConfusion h'
      | ok mi =>
        have hcm := pyListIndex_mem hci
        have hmm := pyListIndex_mem hmi
        refine ⟨hcm, hmm, ?_⟩
        rw [score_catalyst_eq cat rts c e hcm hmm hne] at h
        exact (Except.ok.inj h).symm

theorem score_catalyst_ok_bounds {cat : Catalyst} {rts : List String} {c : Constraints}
    {e : Bool} {s : ℚ} (h : score_catalyst cat rts c e = .ok s) (h0 : 0 < s) :
    matchedList cat rts ≠ [] ∧ coverageScore cat rts ≤ s ∧ s ≤ 100 := by
  rcases score_catalyst_ok_inv h with ⟨hne, rfl⟩ | ⟨hne, _, _, rfl⟩
  · exact absurd h0 (lt_irrefl 0)
  · refine ⟨hne, ?_, min_le_left _ _⟩
    apply le_min
    · exact le_trans (coverageScore_le_50 cat rts) (by norm_num)
    · exact coverage_le_scoreSum cat rts c e

theorem buildResults_ok {cats : List Catalyst} {rts : List String} {c : Constraints} {e : Bool}
    {l : List ScoredResult} (h : buildResults cats rts c e = .ok l) :
    l = includedList cats rts c e := by
  induction cats generalizing l with
  | nil =>
    simp only [buildResults, Except.ok.injEq] at h
    simp [includedList, ← h]
  | cons cat rest ih =>
    unfold buildResults at h
    cases hs : score_catalyst cat rts c e with
    | error err => rw [hs] at h; cases h
    | ok s =>
      rw [hs] at h
      cases hb : buildResults rest rts c e with
      | error err => rw [hb] at h; cases h
      | ok tail =>
        rw [hb] at h
        simp only [Except.ok.injEq] at h
        unfold includedList
        rw [List.filterMap_cons]
        simp only [hs]
        have htail : tail = includedList rest rts c e := ih hb
        by_cases h0 : 0 < s
        · rw [if_pos h0] at h ⊢
          rw [← h, htail]
          rfl
        · rw [if_neg h0] at h ⊢
          rw [← h, htail]
          rfl

theorem recommend_ok_results {db : Db} {r : String} {sub : Option String} {c : Constraints}
    {e : Bool} {out : RecommendOutput} (h : recommend db r sub c e = .ok out) :
    out.results =
      sortScoreDesc (includedList db.catalysts (normalize_reaction r db.reaction_type_map) c e) := by
  simp only [recommend] at h
  cases hb : buildResults db.catalysts (normalize_reaction r db.reaction_type_map) c e with
  | error err => simp only [hb] at h; exact Except.noConfusion h
  | ok raw =>
    simp only [hb, Except.ok.injEq] at h
    rw [← h, buildResults_ok hb]

theorem mem_includedList {x : ScoredResult} {cats : List Catalyst} {rts : List String}
    {c : Constraints} {e : Bool} :
    x ∈ includedList cats rts c e ↔
      ∃ cat ∈ cats, ∃ s, score_catalyst cat rts c e = .ok s ∧ 0 < s ∧ x = mkResult cat s rts := by
  unfold includedList
  rw [List.mem_filterMap]
  constructor
  · rintro ⟨cat, hcat, hx⟩
    refine ⟨cat, hcat, ?_⟩
    cases hs : score_catalyst cat rts c e with
    | error err => simp only [hs] at hx; exact Option.noConfusion hx
    | ok s =>
      simp only [hs] at hx
      by_cases h0 : 0 < s
      · rw [if_pos h0] at hx
        exact ⟨s, rfl, h0, (Option.some.inj hx).symm⟩
      · rw [if_neg h0] at hx; cases hx
  · rintro ⟨cat, hcat, s, hs, h0, rfl⟩
    refine ⟨cat, hcat, ?_⟩
    simp only [hs, if_pos h0]

theorem roundHalfEven_le_ceil (x : ℚ) : roundHalfEven x ≤ ⌈x⌉ := by
  simp only [roundHalfEven]
  split_ifs with h1 h2 h3
  · exact Int.floor_le_ceil x
  · rw [Int.add_one_le_iff]
    refine Int.lt_ceil.mpr ?_
    have hf := Int.floor_le x
    linarith
  · exact Int.floor_le_ceil x
  · rw [Int.add_one_le_iff]
    refine Int.lt_ceil.mpr ?_
    have heq : x - (⌊x⌋ : ℚ) = 1/2 := le_antisymm (not_lt.mp h2) (not_lt.mp h1)
    linarith

theorem one_le_roundHalfEven {x : ℚ} (h : 1/2 < x) : 1 ≤ roundHalfEven x := by
  have hf0 : 0 ≤ ⌊x⌋ := Int.floor_nonneg.mpr (by linarith)
  simp only [roundHalfEven]
  split_ifs with h1 h2 h3
  · have hfle : (⌊x⌋ : ℚ) ≤ x := Int.floor_le x
    have : (0:ℚ) < (⌊x⌋ : ℚ) := by linarith
    have h0 : 0 < ⌊x⌋ := by exact_mod_cast this
    omega
  · omega
  · have hfle : (⌊x⌋ : ℚ) ≤ x := Int.floor_le x
    have heq : x - (⌊x⌋ : ℚ) = 1/2 := le_antisymm (not_lt.mp h2) (not_lt.mp h1)
    have : (0:ℚ) < (⌊x⌋ : ℚ) := by linarith
    have h0 : 0 < ⌊x⌋ := by exact_mod_cast this
    omega
  · omega

theorem round1_pos {q : ℚ} (h : 1/20 < q) : 0 < round1 q := by
  unfold round1
  have h1 : 1 ≤ roundHalfEven (10 * q) := one_le_roundHalfEven (by linarith)
  have h2 : (1:ℚ) ≤ (roundHalfEven (10 * q) : ℚ) := by exact_mod_cast h1
  linarith

theorem round1_le_100 {q : ℚ} (h : q ≤ 100) : round1 q ≤ 100 := by
  unfold round1
  have h1 : roundHalfEven (10 * q) ≤ ⌈10 * q⌉ := roundHalfEven_le_ceil _
  have h2 : ⌈10 * q⌉ ≤ 1000 := Int.ceil_le.mpr (by push_cast; linarith)
  have h3 : (roundHalfEven (10 * q) : ℚ) ≤ 1000 := by exact_mod_cast le_trans h1 h2
  linarith

theorem sortStrAsc_ne_nil {l : List String} (h : l ≠ []) : sortStrAsc l ≠ [] := by
  cases l with
  | nil => exact absurd rfl h
  | cons x xs =>
    show insertStrAsc x (sortStrAsc xs) ≠ []
    cases sortStrAsc xs with
    | nil => simp [insertStrAsc]
    | cons y ys =>
      unfold insertStrAsc
      split <;> simp

theorem stericStep_strategy {M : Type} {tk : Toolkit M} {mol : M} {sub : String × String}
    {v : Variant} (h : stericStep tk mol sub = some v) : v.strategy = "steric" := by
  simp only [stericStep] at h
  repeat' split at h
  all_goals first
    | exact Option.noConfusion h
    | (rw [← Option.some.inj h])

theorem electronicStep_strategy {M : Type} {tk : Toolkit M} {mol : M} {sub : String × String}
    {v : Variant} (h : electronicStep tk mol sub = some v) : v.strategy = "electronic" := by
  simp only [electronicStep] at h
  repeat' split at h
  all_goals first
    | exact Option.noConfusion h
    | (rw [← Option.some.inj h])

theorem generate_steric_strategy {M : Type} (tk : Toolkit M) (smiles : String) :
    ∀ v ∈ generate_steric_variants tk smiles, v.strategy = "steric" := by
  intro v hv
  unfold generate_steric_variants at hv
  cases hp : tk.parseSmiles smiles with
  | none => simp [hp] at hv
  | some mol =>
    simp only [hp] at hv
    obtain ⟨sub, hsub, hstep⟩ := List.mem_filterMap.mp hv
    exact stericStep_strategy hstep

theorem generate_electronic_strategy {M : Type} (tk : Toolkit M) (smiles : String) :
    ∀ v ∈ generate_electronic_variants tk smiles, v.strategy = "electronic" := by
  intro v hv
  unfold generate_electronic_variants at hv
  cases hp : tk.parseSmiles smiles with
  | none => simp [hp] at hv
  | some mol =>
    simp only [hp] at hv
    obtain ⟨sub, hsub, hstep⟩ := List.mem_filterMap.mp hv
    exact electronicStep_strategy hstep

theorem generate_bioisosteric_strategy {M : Type} (tk : Toolkit M) (smiles : String) :
    ∀ v ∈ generate_bioisosteric_suggestions tk smiles, v.strategy = "bioisosteric" := by
  intro v hv
  simp only [generate_bioisosteric_suggestions] at hv
  cases hp : tk.parseSmiles smiles with
  | none => simp [hp] at hv
  | some mol =>
    simp only [hp] at hv
    rw [List.mem_append] at hv
    have hall : v = pToNHC ∨ v = pToPhosphite ∨ v = phenylToPyridyl ∨ v = phenylToMesityl := by
      rcases hv with hv | hv <;> split at hv <;> simp at hv <;> tauto
    rcases hall with rfl | rfl | rfl | rfl <;> rfl

/-- C6: for every toolkit, every scaffold whose resolved structure string fails to parse, and every strategy, design_ligands reports status error and produces no variants. The source error dict carries no variants key at all; the variant list a consumer reads from it (missing key as empty list, as the orchestrator does with dict.get) is empty. -/
theorem C6_unparsable_scaffold (M : Type) (tk : Toolkit M) (scaffold strategy : String)
    (h : tk.parseSmiles (resolve_scaffold scaffold) = none) :
    (design_ligands tk scaffold strategy).status = "error" ∧
    (design_ligands tk scaffold strategy).variants = none ∧
    variantsOf (design_ligands tk scaffold strategy) = [] := by
  have hp : compute_ligand_props tk (resolve_scaffold scaffold) = none := by
    unfold compute_ligand_props
    rw [h]
  simp [design_ligands, variantsOf, hp]

/-- Witness for C6: a toolkit that rejects every structure string. -/
theorem C6_unparsable_scaffold_witness :
    (design_ligands tkFail "PPh3" "all").status = "error" ∧
    (design_ligands tkFail "PPh3" "all").variants = none ∧
    variantsOf (design_ligands tkFail "PPh3" "all") = [] :=
  C6_unparsable_scaffold Unit tkFail "PPh3" "all" (by decide)

/-- C7: for every toolkit and every parsable scaffold, each single strategy yields only variants carrying its own tag, and strategy all yields exactly the concatenation of the steric, electronic and bioisosteric lists in that order. -/
theorem C7_strategy_variants (M : Type) (tk : Toolkit M) (scaffold : String)
    (h : (compute_ligand_props tk (resolve_scaffold scaffold)).isSome = true) :
    (∀ v ∈ variantsOf (design_ligands tk scaffold "steric"), v.strategy = "steric") ∧
    (∀ v ∈ variantsOf (design_ligands tk scaffold "electronic"), v.strategy = "electronic") ∧
    (∀ v ∈ variantsOf (design_ligands tk scaffold "bioisosteric"), v.strategy = "bioisosteric") ∧
    variantsOf (design_ligands tk scaffold "all") =
      variantsOf (design_ligands tk scaffold "steric") ++
        variantsOf (design_ligands tk scaffold "electronic") ++
        variantsOf (design_ligands tk scaffold "bioisosteric") := by
  obtain ⟨props, hp⟩ := Option.isSome_iff_exists.mp h
  have hst : variantsOf (design_ligands tk scaffold "steric") =
      generate_steric_variants tk (resolve_scaffold scaffold) := by
    simp [design_ligands, variantsOf, hp]
  have hel : variantsOf (design_ligands tk scaffold "electronic") =
      generate_electronic_variants tk (resolve_scaffold scaffold) := by
    simp [design_ligands, variantsOf, hp]
  have hbi : variantsOf (design_ligands tk scaffold "bioisosteric") =
      generate_bioisosteric_suggestions tk (resolve_scaffold scaffold) := by
    simp [design_ligands, variantsOf, hp]
  have hall : variantsOf (design_ligands tk scaffold "all") =
      generate_steric_variants tk (resolve_scaffold scaffold) ++
        generate_electronic_variants tk (resolve_scaffold scaffold) ++
        generate_bioisosteric_suggestions tk (resolve_scaffold scaffold) := by
    simp [design_ligands, variantsOf, hp]
  refine ⟨?_, ?_, ?_, ?_⟩
  · rw [hst]; exact generate_steric_strategy tk _
  · rw [hel]; exact generate_electronic_strategy tk _
  · rw [hbi]; exact generate_bioisosteric_strategy tk _
  · rw [hall, hst, hel, hbi]

/-- Witness for C7 with the trivial toolkit and the PPh3 alias. -/
theorem C7_strategy_variants_witness :
    variantsOf (design_ligands tkUnit "PPh3" "all") =
      variantsOf (design_ligands tkUnit "PPh3" "steric") ++
        variantsOf (design_ligands tkUnit "PPh3" "electronic") ++
        variantsOf (design_ligands tkUnit "PPh3" "bioisosteric") :=
  (C7_strategy_variants Unit tkUnit "PPh3" (by decide)).2.2.2

/-- C1: for a requested-type set (duplicate-free list), valid cost tiers, any constraints and flag: score_catalyst returns 0 when the record types are disjoint from the requested types, and otherwise the sum of reaction coverage 50 times matched over requested, the cost tier points when the catalyst tier rank is at most the max_cost rank (max_cost defaulting to very_high), the case-insensitive metal preference bonus 10, the earth-abundant bonus 5, the enantioselectivity bonus 10 or 5, min of 5 and the advantages count, and the low-loading bonus 5 or 3; the sum never exceeds 100 so the final clip is inert. -/
theorem C1_score_catalyst_formula (cat : Catalyst) (rts : List String) (c : Constraints) (e : Bool)
    (hset : rts.Nodup)
    (hc : cat.cost_relative ∈ cost_rank)
    (hm : c.max_cost.getD "very_high" ∈ cost_rank) :
    rts.toFinset.card = rts.length ∧
    (matchedList cat rts = [] → score_catalyst cat rts c e = .ok 0) ∧
    (matchedList cat rts ≠ [] →
      score_catalyst cat rts c e = .ok (scoreSum cat rts c e) ∧ scoreSum cat rts c e ≤ 100) := by
  refine ⟨List.toFinset_card_of_nodup hset, ?_, ?_⟩
  · intro hne
    exact score_catalyst_empty cat rts c e hne
  · intro hne
    refine ⟨?_, scoreSum_le_100 cat rts c e⟩
    rw [score_catalyst_eq cat rts c e hc hm hne,
      min_eq_right (scoreSum_le_100 cat rts c e)]

/-- Witness for C1 at a concrete catalyst and request: coverage 50, cost 12, advantages 2, loading 5. -/
theorem C1_score_catalyst_formula_witness :
    score_catalyst catW ["suzuki"] {} false = .ok 69 := by
  have h := (C1_score_catalyst_formula catW ["suzuki"] {} false (by decide) (by decide)
    (by decide)).2.2 (by decide)
  rw [h.1]
  with_unfolding_all decide

/-- C2: for every database and request, a returned recommendation holds exactly the positive-scoring catalysts, is sorted descending on the stored score, keeps equal-score entries in repository first-seen order (the filter at every score value equals the in-order included list), and an identical request yields the identical ranking. -/
theorem C2_recommend_ranking (db : Db) (r : String) (sub : Option String) (c : Constraints)
    (e : Bool) (out : RecommendOutput) (h : recommend db r sub c e = .ok out) :
    (∀ x, x ∈ out.results ↔ ∃ cat ∈ db.catalysts, ∃ s,
        score_catalyst cat (normalize_reaction r db.reaction_type_map) c e = .ok s ∧ 0 < s ∧
        x = mkResult cat s (normalize_reaction r db.reaction_type_map)) ∧
    out.results.Pairwise (fun a b => b.score ≤ a.score) ∧
    (∀ q : ℚ, out.results.filter (fun z => decide (z.score = q)) =
      (includedList db.catalysts (normalize_reaction r db.reaction_type_map) c e).filter
        (fun z => decide (z.score = q))) ∧
    (∀ out2, recommend db r sub c e = .ok out2 → out2.results = out.results) := by
  have hres := recommend_ok_results h
  refine ⟨?_, ?_, ?_, ?_⟩
  · intro x
    rw [hres, mem_sortScoreDesc, mem_includedList]
  · rw [hres]
    exact pairwise_sortScoreDesc _
  · intro q
    rw [hres]
    exact filter_sortScoreDesc _ q
  · intro out2 h2
    rw [h] at h2
    exact congrArg RecommendOutput.results (Except.ok.inj h2).symm

/-- Witness for C2 on the concrete database. -/
theorem C2_recommend_ranking_witness :
    ((recommend db5 "suzuki" none {} false).toOption.map
        (fun o => o.results.filter (fun z => decide (z.score = (69:ℚ))))).getD [] =
      (includedList db5.catalysts (normalize_reaction "suzuki" db5.reaction_type_map) {} false).filter
        (fun z => decide (z.score = (69:ℚ))) := by
  cases hE : recommend db5 "suzuki" none {} false with
  | error err =>
    have hok : (recommend db5 "suzuki" none {} false).toOption.isSome = true := by decide
    rw [hE] at hok
    simp [Except.toOption] at hok
  | ok out =>
    have h := (C2_recommend_ranking db5 "suzuki" none {} false out hE).2.2.1 69
    simpa [Except.toOption] using h

/-- C3: normalize lowercases and underscores the descriptor; an exact vocabulary key returns its singleton; otherwise the result is the union of the substring-scan keys and the alias expansion, with the literal token as singleton fallback when that union is empty. On the spec-modelled vocabulary, rcm expands to include ring_closing_metathesis and Suzuki maps to the suzuki singleton. -/
theorem C3_normalize_policy :
    (∀ d rmap,
      ((rmap.map Prod.fst).contains (pyNormalizeToken d) = true →
        normalize_reaction d rmap = [pyNormalizeToken d]) ∧
      ((rmap.map Prod.fst).contains (pyNormalizeToken d) = false →
        ∀ k, k ∈ normalize_reaction d rmap ↔
          (k ∈ fuzzyKeys (pyNormalizeToken d) rmap ∨ k ∈ aliasExpansion (pyNormalizeToken d) ∨
            (fuzzyKeys (pyNormalizeToken d) rmap = [] ∧ aliasExpansion (pyNormalizeToken d) = [] ∧
              k = pyNormalizeToken d)))) ∧
    "ring_closing_metathesis" ∈ normalize_reaction "rcm" reaction_type_map_model ∧
    normalize_reaction "Suzuki" reaction_type_map_model = ["suzuki"] := by
  refine ⟨?_, by decide, by decide⟩
  intro d rmap
  constructor
  · intro hc
    simp only [normalize_reaction]
    rw [if_pos hc]
  · intro hc k
    simp only [normalize_reaction]
    rw [if_neg (by rw [hc]; exact Bool.false_ne_true)]
    by_cases hms : fuzzyKeys (pyNormalizeToken d) rmap ++ aliasExpansion (pyNormalizeToken d) = []
    · rw [if_pos hms]
      obtain ⟨hf, ha⟩ := List.append_eq_nil.mp hms
      simp [hf, ha]
    · rw [if_neg hms]
      rw [List.mem_dedup, List.mem_append]
      constructor
      · rintro (hk | hk)
        · exact Or.inl hk
        · exact Or.inr (Or.inl hk)
      · rintro (hk | hk | ⟨hf, ha, rfl⟩)
        · exact Or.inl hk
        · exact Or.inr hk
        · exact absurd (by rw [hf, ha]; rfl) hms

/-- Witness for C3: the exact-match branch at a concrete descriptor and vocabulary. -/
theorem C3_normalize_policy_witness :
    normalize_reaction "Suzuki" reaction_type_map_model = [pyNormalizeToken "Suzuki"] :=
  (C3_normalize_policy.1 "Suzuki" reaction_type_map_model).1 (by decide)

/-- C4 as stated is false: the normalized token cuaac is a case-insensitive substring of the vocabulary key click_CuAAC, yet the scan of the code compares the token against the key as stored, excludes it, and normalize falls back to the literal token. -/
theorem C4_counterexample :
    strContains (pyLower "click_CuAAC") (pyNormalizeToken "CuAAC") = true ∧
    fuzzyKeys (pyNormalizeToken "CuAAC")
        [("click_CuAAC", "copper catalysed azide alkyne cycloaddition")] = [] ∧
    normalize_reaction "CuAAC"
        [("click_CuAAC", "copper catalysed azide alkyne cycloaddition")] = ["cuaac"] := by
  decide

/-- C4 amended: the scan includes a key exactly when the (already lowercased) token occurs in the key as stored - case-sensitively on the key side - or in the lowercased description. -/
theorem C4_amended_fuzzy_scan (r : String) (rmap : List (String × String)) (k : String) :
    k ∈ fuzzyKeys r rmap ↔
      ∃ d, (k, d) ∈ rmap ∧ (strContains k r = true ∨ strContains (pyLower d) r = true) := by
  unfold fuzzyKeys
  rw [List.mem_map]
  constructor
  · rintro ⟨⟨k2, d⟩, hmem, rfl⟩
    rw [List.mem_filter] at hmem
    refine ⟨d, hmem.1, ?_⟩
    simpa using hmem.2
  · rintro ⟨d, hmem, hcond⟩
    refine ⟨(k, d), ?_, rfl⟩
    rw [List.mem_filter]
    refine ⟨hmem, ?_⟩
    simpa using hcond

/-- C5: every result recommend returns carries a stored score strictly above 0 and at most 100, and a non-empty matched_reactions list. Positivity of the stored (rounded) score uses that the normalized request holds fewer than a thousand types, which holds for any realistic vocabulary. -/
theorem C5_result_invariants (db : Db) (r : String) (sub : Option String) (c : Constraints)
    (e : Bool) (out : RecommendOutput)
    (h : recommend db r sub c e = .ok out)
    (hn : (normalize_reaction r db.reaction_type_map).length ≤ 999) :
    ∀ x ∈ out.results, 0 < x.score ∧ x.score ≤ 100 ∧ x.matched_reactions ≠ [] := by
  intro x hx
  rw [recommend_ok_results h, mem_sortScoreDesc, mem_includedList] at hx
  obtain ⟨cat, hcat, s, hs, h0, rfl⟩ := hx
  obtain ⟨hne, hcov, hle⟩ := score_catalyst_ok_bounds hs h0
  have hm1 : 1 ≤ (matchedList cat (normalize_reaction r db.reaction_type_map)).length :=
    List.length_pos.mpr hne
  have hrts_pos : 0 < (normalize_reaction r db.reaction_type_map).length := by
    by_contra hz
    push_neg at hz
    have hnil : normalize_reaction r db.reaction_type_map = [] :=
      List.length_eq_zero.mp (Nat.le_zero.mp (Nat.lt_succ_iff.mp (Nat.lt_succ_of_le hz)))
    rw [hnil] at hne
    exact hne (matchedList_nil cat)
  have hq : (1:ℚ)/20 < coverageScore cat (normalize_reaction r db.reaction_type_map) := by
    unfold coverageScore
    have hm1q : (1:ℚ) ≤ ((matchedList cat (normalize_reaction r db.reaction_type_map)).length : ℚ) := by
      exact_mod_cast hm1
    have hnq : ((normalize_reaction r db.reaction_type_map).length : ℚ) ≤ 999 := by
      exact_mod_cast hn
    have hn0 : (0:ℚ) < ((normalize_reaction r db.reaction_type_map).length : ℚ) := by
      exact_mod_cast hrts_pos
    rw [lt_div_iff hn0]
    linarith
  have hs20 : (1:ℚ)/20 < s := lt_of_lt_of_le hq hcov
  refine ⟨?_, ?_, ?_⟩
  · show 0 < (mkResult cat s (normalize_reaction r db.reaction_type_map)).score
    simp only [mkResult]
    exact round1_pos hs20
  · show (mkResult cat s (normalize_reaction r db.reaction_type_map)).score ≤ 100
    simp only [mkResult]
    exact round1_le_100 hle
  · show (mkResult cat s (normalize_reaction r db.reaction_type_map)).matched_reactions ≠ []
    simp only [mkResult]
    exact sortStrAsc_ne_nil hne

/-- Witness for C5 on the concrete database: every returned entry satisfies the invariants. -/
theorem C5_result_invariants_witness :
    (((recommend db5 "suzuki" none {} false).toOption.map RecommendOutput.results).getD []).all
      (fun x => decide (0 < x.score) && decide (x.score ≤ 100) &&
        !(x.matched_reactions.isEmpty)) = true := by
  cases hE : recommend db5 "suzuki" none {} false with
  | error err =>
    have hok : (recommend db5 "suzuki" none {} false).toOption.isSome = true := by
      with_unfolding_all decide
    rw [hE] at hok
    simp [Except.toOption] at hok
  | ok out =>
    have h := C5_result_invariants db5 "suzuki" none {} false out hE (by decide)
    simp only [hE, Except.toOption, Option.map_some, Option.getD_some]
    rw [List.all_eq_true]
    intro x hx
    obtain ⟨h1, h2, h3⟩ := h x hx
    have h3f : x.matched_reactions.isEmpty = false := by
      cases hmr : x.matched_reactions with
      | nil => exact absurd hmr h3
      | cons a l => rfl
    simp [h1, h2, h3f]

/-- C9: the claim that score_catalyst and recommend never let an exception escape is false on the code and right in the spec: a max_cost value outside the five tier names makes cost_rank.index raise an uncaught ValueError, which the embedding surfaces as the error value both functions propagate. -/
theorem C9_unknown_max_cost_raises :
    score_catalyst cat9 ["suzuki"] { max_cost := some "cheap" } false =
      .error "cheap is not in list" ∧
    recommend db9 "suzuki" none { max_cost := some "cheap" } false =
      .error "cheap is not in list" := by
  constructor
  · with_unfolding_all decide
  · with_unfolding_all decide

/-- C10: each returned entry stores the one-decimal rounding of its exact score while inclusion tested the exact score; the ranking is the stable descending sort on the stored rounded value, so entries with equal rounded scores stay in repository first-seen order even when their exact scores differ. -/
theorem C10_rounded_sort_key (db : Db) (r : String) (sub : Option String) (c : Constraints)
    (e : Bool) (out : RecommendOutput) (h : recommend db r sub c e = .ok out) :
    (∀ x ∈ out.results, ∃ cat ∈ db.catalysts, ∃ s,
        score_catalyst cat (normalize_reaction r db.reaction_type_map) c e = .ok s ∧ 0 < s ∧
        x = mkResult cat s (normalize_reaction r db.reaction_type_map) ∧ x.score = round1 s) ∧
    out.results =
      sortScoreDesc (includedList db.catalysts (normalize_reaction r db.reaction_type_map) c e) ∧
    (∀ q : ℚ, out.results.filter (fun z => decide (z.score = q)) =
      (includedList db.catalysts (normalize_reaction r db.reaction_type_map) c e).filter
        (fun z => decide (z.score = q))) := by
  have hres := recommend_ok_results h
  refine ⟨?_, hres, ?_⟩
  · intro x hx
    rw [hres, mem_sortScoreDesc, mem_includedList] at hx
    obtain ⟨cat, hcat, s, hs, h0, rfl⟩ := hx
    exact ⟨cat, hcat, s, hs, h0, rfl, by simp [mkResult]⟩
  · intro q
    rw [hres]
    exact filter_sortScoreDesc _ q

/-- Witness for C10: a request of thirteen types where the first-seen catalyst scores 426/13 and the later one 427/13; the exact scores differ, both round to 164/5, and the ranking keeps first-seen order against exact-score order. -/
theorem C10_rounded_sort_key_witness :
    ((recommend db10 "xx" none c10 false).toOption.map
        (fun o => o.results.filter (fun z => decide (z.score = (164/5 : ℚ))))).getD [] =
      (includedList db10.catalysts (normalize_reaction "xx" db10.reaction_type_map) c10
          false).filter (fun z => decide (z.score = (164/5 : ℚ))) ∧
    score_catalyst catB10 (normalize_reaction "xx" rmap10) c10 false = .ok (426/13) ∧
    score_catalyst catA10 (normalize_reaction "xx" rmap10) c10 false = .ok (427/13) ∧
    (426/13 : ℚ) ≠ 427/13 ∧ round1 (426/13) = round1 (427/13) ∧
    ((recommend db10 "xx" none c10 false).toOption.map
        (fun o => o.results.map ScoredResult.catalyst_id)) = some ["catB", "catA"] := by
  refine ⟨?_, by with_unfolding_all decide, by with_unfolding_all decide,
    by with_unfolding_all decide, by with_unfolding_all decide, by with_unfolding_all decide⟩
  cases hE : recommend db10 "xx" none c10 false with
  | error err =>
    have hok : (recommend db10 "xx" none c10 false).toOption.isSome = true := by
      with_unfolding_all decide
    rw [hE] at hok
    simp [Except.toOption] at hok
  | ok out =>
    have h := (C10_rounded_sort_key db10 "xx" none c10 false out hE).2.2 (164/5)
    simpa [Except.toOption] using h

theorem recPart_isSome {db : Db} {input : ChainInput} {o : Option RecommendOutput}
    (h : recPart db input = .ok o) :
    o.isSome = true ↔ hasReactionField input = true := by
  unfold recPart at h
  by_cases hr : hasReactionField input = true
  · rw [if_pos hr] at h
    cases hp : pyOr input.reaction input.reaction_type with
    | none => simp only [hp] at h; exact Except.noConfusion h
    | some r =>
      simp only [hp] at h
      cases hrec : recommend db r (pyOr input.substrate input.smiles)
          (input.constraints.getD {}) (input.enantioselective.getD false) with
      | error err => simp only [hrec] at h; exact Except.noConfusion h
      | ok out =>
        simp only [hrec] at h
        obtain rfl := Except.ok.inj h
        simp [hr]
  · rw [if_neg hr] at h
    obtain rfl := Except.ok.inj h
    simp [hr]

theorem ldPart_isSome {M : Type} {tk : Toolkit M} {input : ChainInput} {o : Option DesignResult}
    (h : ldPart tk input = .ok o) :
    o.isSome = true ↔ hasScaffoldField input = true := by
  unfold ldPart at h
  by_cases hs : hasScaffoldField input = true
  · rw [if_pos hs] at h
    cases hp : pyOr input.scaffold input.ligand with
    | none => simp only [hp] at h; exact Except.noConfusion h
    | some sc =>
      simp only [hp] at h
      obtain rfl := Except.ok.inj h
      simp [hs]
  · rw [if_neg hs] at h
    obtain rfl := Except.ok.inj h
    simp [hs]

theorem autoChain_isSome {M : Type} (db : Db) (tk : Toolkit M) (input : ChainInput)
    (rec : Option RecommendOutput) :
    (autoChain db tk input rec).isSome = true ↔
      (hasReactionField input = true ∧ hasScaffoldField input = false ∧
        ∃ out top rest, rec = some out ∧ out.results = top :: rest ∧ top.abbreviation ≠ "" ∧
          (db.catalysts.find? (fun cat =>
            cat.id == top.catalyst_id && truthyStr cat.ligand_smiles)).isSome = true) := by
  unfold autoChain
  by_cases hcond : (hasReactionField input && !hasScaffoldField input) = true
  · have hcond2 := hcond
    rw [Bool.and_eq_true] at hcond2
    obtain ⟨ha, hb⟩ := hcond2
    have hbf : hasScaffoldField input = false := by
      cases hsf : hasScaffoldField input
      · rfl
      · rw [hsf] at hb; exact absurd hb (by decide)
    rw [if_pos hcond]
    cases rec with
    | none =>
      simp only [Option.isSome_none, Bool.false_eq_true, false_iff]
      rintro ⟨-, -, out, top, rest, heq, -⟩
      exact Option.noConfusion heq
    | some out =>
      cases hres : out.results with
      | nil =>
        simp only [hres, Option.isSome_none, Bool.false_eq_true, false_iff]
        rintro ⟨-, -, out2, top, rest, heq, hres2, -⟩
        obtain rfl := Option.some.inj heq
        rw [hres] at hres2
        exact List.noConfusion hres2
      | cons top rest =>
        simp only [hres]
        by_cases habb : top.abbreviation ≠ ""
        · rw [if_pos habb]
          cases hf : db.catalysts.find? (fun cat =>
              cat.id == top.catalyst_id && truthyStr cat.ligand_smiles) with
          | none =>
            simp only [Option.isSome_none, Bool.false_eq_true, false_iff]
            rintro ⟨-, -, out2, t, r, heq, hres2, -, hfs⟩
            obtain rfl := Option.some.inj heq
            rw [hres] at hres2
            obtain ⟨rfl, -⟩ := List.cons.inj hres2
            rw [hf] at hfs
            exact Bool.noConfusion hfs
          | some cat =>
            simp only [Option.isSome_some, true_iff]
            exact ⟨ha, hbf, out, top, rest, rfl, hres, habb, by rw [hf]; rfl⟩
        · rw [if_neg habb]
          simp only [Option.isSome_none, Bool.false_eq_true, false_iff]
          rintro ⟨-, -, out2, t, r, heq, hres2, habb2, -⟩
          obtain rfl := Option.some.inj heq
          rw [hres] at hres2
          obtain ⟨rfl, -⟩ := List.cons.inj hres2
          exact habb habb2
  · rw [if_neg hcond]
    simp only [Option.isSome_none, Bool.false_eq_true, false_iff]
    rintro ⟨ha, hb, -⟩
    rw [ha, hb] at hcond
    exact hcond rfl

theorem autoChain_eq_design {M : Type} {db : Db} {tk : Toolkit M} {input : ChainInput}
    {rec : Option RecommendOutput} {out : RecommendOutput} {top : ScoredResult}
    {rest : List ScoredResult} {cat : Catalyst}
    (ha : hasReactionField input = true) (hb : hasScaffoldField input = false)
    (hrec : rec = some out) (hres : out.results = top :: rest)
    (habb : top.abbreviation ≠ "")
    (hf : db.catalysts.find? (fun c2 =>
      c2.id == top.catalyst_id && truthyStr c2.ligand_smiles) = some cat) :
    autoChain db tk input rec = some (design_ligands tk (cat.ligand_smiles.getD "") "all") := by
  unfold autoChain
  rw [if_pos (by rw [ha, hb]; rfl)]
  subst hrec
  simp only [hres]
  rw [if_pos habb, hf]

theorem chain_run_ok {M : Type} {db : Db} {tk : Toolkit M} {input : ChainInput}
    {report : ChainReport} (h : chain_run db tk input = .ok report) :
    ∃ rec ld, recPart db input = .ok rec ∧ ldPart tk input = .ok ld ∧
      report.recommendation = rec ∧ report.ligand_design = ld ∧
      report.ligand_optimization = autoChain db tk input rec := by
  unfold chain_run at h
  cases hR : recPart db input with
  | error err => simp only [hR] at h; exact Except.noConfusion h
  | ok rec =>
    simp only [hR] at h
    cases hL : ldPart tk input with
    | error err => simp only [hL] at h; exact Except.noConfusion h
    | ok ld =>
      simp only [hL] at h
      have hrep := Except.ok.inj h
      refine ⟨rec, ld, ?_, ?_, ?_, ?_, ?_⟩
      · first
        | exact hR
        | rfl
      · first
        | exact hL
        | rfl
      · rw [← hrep]
      · rw [← hrep]
      · rw [← hrep]

/-- C8 amended: a returned report has a recommendation section exactly when a reaction-like field is present and a ligand_design section exactly when a scaffold-like field is present; ligand_optimization is present exactly when a reaction-like field is present, no scaffold-like field is, the recommendation has a first result whose abbreviation is non-empty - a guard the claim omits - and whose database record registers a non-empty ligand_smiles, and it then holds the Variant Generator output with strategy all on that structure; a scaffold-only request has no recommendation section. -/
theorem C8_report_sections (M : Type) (db : Db) (tk : Toolkit M) (input : ChainInput)
    (report : ChainReport) (h : chain_run db tk input = .ok report) :
    (report.recommendation.isSome = true ↔ hasReactionField input = true) ∧
    (report.ligand_design.isSome = true ↔ hasScaffoldField input = true) ∧
    (report.ligand_optimization.isSome = true ↔
      (hasReactionField input = true ∧ hasScaffoldField input = false ∧
        ∃ out top rest, report.recommendation = some out ∧ out.results = top :: rest ∧
          top.abbreviation ≠ "" ∧
          (db.catalysts.find? (fun cat =>
            cat.id == top.catalyst_id && truthyStr cat.ligand_smiles)).isSome = true)) ∧
    (∀ out top rest cat, report.recommendation = some out → hasScaffoldField input = false →
      out.results = top :: rest → top.abbreviation ≠ "" →
      db.catalysts.find? (fun c2 =>
        c2.id == top.catalyst_id && truthyStr c2.ligand_smiles) = some cat →
      report.ligand_optimization = some (design_ligands tk (cat.ligand_smiles.getD "") "all")) ∧
    (hasScaffoldField input = true → hasReactionField input = false →
      report.recommendation = none) := by
  obtain ⟨rec, ld, hR, hL, hrec, hld, hopt⟩ := chain_run_ok h
  refine ⟨?_, ?_, ?_, ?_, ?_⟩
  · rw [hrec]
    exact recPart_isSome hR
  · rw [hld]
    exact ldPart_isSome hL
  · rw [hopt, hrec]
    exact autoChain_isSome db tk input rec
  · intro out top rest cat hro hsb hres habb hf
    have hrecsome : rec = some out := by rw [← hrec]; exact hro
    have ha : hasReactionField input = true :=
      (recPart_isSome hR).mp (by rw [hrecsome]; rfl)
    rw [hopt]
    exact autoChain_eq_design ha hsb hrecsome hres habb hf
  · intro hsc hnr
    rw [hrec]
    have hiff := recPart_isSome hR
    cases rec with
    | none => rfl
    | some o =>
      have := hiff.mp rfl
      rw [hnr] at this
      exact Bool.noConfusion this

/-- Witness for C8 on the concrete reaction-only request: no scaffold-like field, so the report has no ligand_design section. -/
theorem C8_report_sections_witness :
    ((chain_run db8 tkUnit in8).toOption.bind ChainReport.ligand_design) = none := by
  cases hE : chain_run db8 tkUnit in8 with
  | error err =>
    have hok : (chain_run db8 tkUnit in8).toOption.isSome = true := by
      with_unfolding_all decide
    rw [hE] at hok
    simp [Except.toOption] at hok
  | ok report =>
    have h := (C8_report_sections Unit db8 tkUnit in8 report hE).2.1
    have hsf : hasScaffoldField in8 = false := by decide
    have hnone : report.ligand_design = none := by
      cases hld : report.ligand_design with
      | none => rfl
      | some d =>
        have : hasScaffoldField in8 = true := h.mp (by rw [hld]; rfl)
        rw [hsf] at this
        exact Bool.noConfusion this
    simp [hE, Except.toOption, hnone]

/-- C8 as stated is false: on this database the reaction-only request has one result, its catalyst registers a ligand structure reference, yet the report carries no ligand_optimization because the catalyst abbreviation is empty - a guard of the code the claim does not mention. -/
theorem C8_counterexample :
    hasReactionField in8 = true ∧ hasScaffoldField in8 = false ∧
    ((chain_run db8 tkUnit in8).toOption.bind ChainReport.recommendation).isSome = true ∧
    (((chain_run db8 tkUnit in8).toOption.bind ChainReport.recommendation).map
        (fun o => o.results.map ScoredResult.catalyst_id)).getD [] = ["cat8"] ∧
    cat8.ligand_smiles = some "c1ccc(cc1)P(c1ccccc1)c1ccccc1" ∧
    (db8.catalysts.find? (fun cat => cat.id == "cat8" && truthyStr cat.ligand_smiles)).isSome
      = true ∧
    ((chain_run db8 tkUnit in8).toOption.bind ChainReport.ligand_optimization) = none := by
  refine ⟨by decide, by decide, ?_, ?_, by decide, by decide, ?_⟩
  · with_unfolding_all decide
  · with_unfolding_all decide
  · with_unfolding_all decide
